import Mathlib

/-!
Shallow embedding of the LotteryLAB data-acquisition and analysis code
(`src/data_acquisition/*.py`, `src/services/ingestion.py`,
`src/analysis/frequency.py`, `src/analysis/randomness.py`)
together with theorems settling the specification claims.

Conventions:
* Python `int` is modelled by `Int` (arbitrary precision in Python, no overflow).
* Python `float` arithmetic on the statistical formulas is modelled exactly by `Rat`;
  the claims under verification are formula-level, not bit-level.
* `datetime.date` is modelled by a `(year, month, day)` structure ordered
  lexicographically, exactly as CPython compares dates.
* The SQL session is abstracted: the one value the importer reads from it
  (`select max(draw_number)`, with `or 0` for an empty table) is a parameter,
  and the rows a `select` returns are a parameter list.
* Transcendental library calls (`scipy.stats.norm.cdf`, `scipy.stats.chi2.cdf`)
  are parameters of the embedding; no verified claim depends on their values.
-/

namespace LotteryLab

/-- `datetime.date`: CPython orders dates lexicographically by (year, month, day). -/
structure PyDate where
  year : Nat
  month : Nat
  day : Nat
deriving DecidableEq, Repr

/-- `date.__le__`: lexicographic comparison on (year, month, day). -/
def PyDate.le (a b : PyDate) : Bool :=
  (a.year < b.year) ||
  (a.year == b.year && (a.month < b.month ||
    (a.month == b.month && a.day <= b.day)))

/-- `ParsedDraw` dataclass from `file_parser.py`. -/
structure ParsedDraw where
  draw_number : Int
  draw_date : PyDate
  numbers : List Int
deriving DecidableEq, Repr

/-- `ValidationResult` dataclass from `data_validator.py`. -/
structure ValidationResult where
  ok : Bool
  reason : Option String := none
deriving DecidableEq, Repr

/-- The `for n in parsed.numbers` range check of `validate_draw`:
`find?` returns the first number violating `1 <= n <= 49`, exactly the one
Python's loop returns on. -/
def firstOutOfRange (numbers : List Int) : Option Int :=
  numbers.find? (fun n => !(decide (1 ≤ n) && decide (n ≤ 49)))

/-- `validate_draw` from `data_validator.py`, checked in source order:
six numbers, each in 1..49, uniqueness via `len(set(...)) != 6`,
draw date not after `today`, positive draw number. -/
def validate_draw (today : PyDate) (parsed : ParsedDraw) : ValidationResult :=
  if parsed.numbers.length ≠ 6 then
    ⟨false, some "must have 6 numbers"⟩
  else
    match firstOutOfRange parsed.numbers with
    | some n => ⟨false, some ("number out of range: " ++ toString n)⟩
    | none =>
      if parsed.numbers.dedup.length ≠ 6 then
        ⟨false, some "numbers must be unique"⟩
      else if PyDate.le parsed.draw_date today = false then
        ⟨false, some "date in future"⟩
      else if parsed.draw_number ≤ 0 then
        ⟨false, some "draw_number must be positive"⟩
      else
        ⟨true, none⟩

/-- Python whitespace as used by `str.strip` (ASCII range). -/
def isPySpace (c : Char) : Bool :=
  c = ' ' || c = '\t' || c = '\n' || c = '\x0d' || c = '\x0b' || c = '\x0c'

/-- `str.strip()` on a character list. -/
def pyStrip (l : List Char) : List Char :=
  ((l.dropWhile isPySpace).reverse.dropWhile isPySpace).reverse

/-- Numeric value of a decimal digit character. -/
def charDigit (c : Char) : Nat := c.toNat - 48

/-- `int(s)` value of a digit string, most significant first. -/
def digitsToNat (l : List Char) : Nat :=
  l.foldl (fun a c => a * 10 + charDigit c) 0

/-- Sign-and-digits part of `int(s)`, after stripping. -/
def pyParseIntCore : List Char → Option Int
  | [] => none
  | c :: rest =>
    if c = '-' then
      if rest ≠ [] ∧ rest.all Char.isDigit then some (-(digitsToNat rest : Int)) else none
    else if c = '+' then
      if rest ≠ [] ∧ rest.all Char.isDigit then some ((digitsToNat rest : Int)) else none
    else if (c :: rest).all Char.isDigit then some ((digitsToNat (c :: rest) : Int)) else none

/-- `int(s)` on a character list: strip, optional sign, non-empty digit run. -/
def pyParseInt (l : List Char) : Option Int :=
  pyParseIntCore (pyStrip l)

/-- Canonical decimal rendering of a natural number (`str(n)` for `n >= 0`). -/
def natToChars (n : Nat) : List Char :=
  if n = 0 then ['0']
  else (Nat.digits 10 n).reverse.map (fun d => Char.ofNat (48 + d))

/-- `str(n)` for a Python int. -/
def intToChars (n : Int) : List Char :=
  if n < 0 then '-' :: natToChars n.natAbs else natToChars n.natAbs

/-- `s.split(sep, 1)` when `sep` is a single character: `none` models the
`ValueError` of unpacking a splitless result into two names. -/
def pySplitOnce (c : Char) : List Char → Option (List Char × List Char)
  | [] => none
  | x :: xs =>
    if x = c then some ([], xs)
    else match pySplitOnce c xs with
      | none => none
      | some (l, r) => some (x :: l, r)

/-- `s.split(sep)` for a single-character separator; `"".split(sep) == [""]`. -/
def splitOnChar (c : Char) : List Char → List (List Char)
  | [] => [[]]
  | x :: xs =>
    if x = c then [] :: splitOnChar c xs
    else match splitOnChar c xs with
      | [] => [[x]]
      | h :: t => (x :: h) :: t

/-- `serialize_numbers` from `data_validator.py`: `",".join(str(n) for n in numbers)`,
with `str` on an int rendered canonically by `intToChars`. -/
def serialize_numbers (numbers : List Int) : String :=
  String.mk (List.intercalate [','] (numbers.map intToChars))

/-- The property the spec claims `validate_draw` decides. -/
def drawValidSpec (today : PyDate) (p : ParsedDraw) : Prop :=
  p.numbers.length = 6 ∧
  (∀ n ∈ p.numbers, 1 ≤ n ∧ n ≤ 49) ∧
  p.numbers.Nodup ∧
  PyDate.le p.draw_date today = true ∧
  0 < p.draw_number

lemma append_ne_empty_left (s t : String) (h : s.length ≠ 0) : s ++ t ≠ "" := by
  intro hc
  have hl := congrArg String.length hc
  rw [String.length_append] at hl
  have : ("" : String).length = 0 := rfl
  omega

end LotteryLab

/-- C2: `validate_draw` returns `ok = true` iff the numbers list has exactly 6
elements, each in 1..49, pairwise distinct, the draw date is not after `today`,
and the draw number is strictly positive; whenever it returns `ok = false` the
reason is present and non-empty. -/
theorem C2_validate_draw (today : LotteryLab.PyDate) (p : LotteryLab.ParsedDraw) :
    ((LotteryLab.validate_draw today p).ok = true ↔ LotteryLab.drawValidSpec today p) ∧
    ((LotteryLab.validate_draw today p).ok = false →
      ∃ r : String, (LotteryLab.validate_draw today p).reason = some r ∧ r ≠ "") := by
  constructor
  · constructor
    · intro h
      unfold LotteryLab.validate_draw at h
      by_cases h1 : p.numbers.length ≠ 6
      · rw [if_pos h1] at h; simp at h
      · rw [if_neg h1] at h
        cases hfind : LotteryLab.firstOutOfRange p.numbers with
        | some n => rw [hfind] at h; simp at h
        | none =>
          rw [hfind] at h
          by_cases h3 : p.numbers.dedup.length ≠ 6
          · rw [if_pos h3] at h; simp at h
          · rw [if_neg h3] at h
            by_cases h4 : LotteryLab.PyDate.le p.draw_date today = false
            · rw [if_pos h4] at h; simp at h
            · rw [if_neg h4] at h
              by_cases h5 : p.draw_number ≤ 0
              · rw [if_pos h5] at h; simp at h
              · push_neg at h1 h3 h5
                refine ⟨h1, ?_, ?_, ?_, h5⟩
                · intro n hn
                  have := List.find?_eq_none.mp hfind n hn
                  simp at this
                  omega
                · have hlen : p.numbers.dedup.length = p.numbers.length := by omega
                  have hd : p.numbers.dedup = p.numbers :=
                    (List.dedup_sublist p.numbers).eq_of_length hlen
                  exact hd ▸ List.nodup_dedup p.numbers
                · cases hle : LotteryLab.PyDate.le p.draw_date today with
                  | false => exact absurd hle h4
                  | true => rfl
    · rintro ⟨h1, h2, h3, h4, h5⟩
      have h1' : ¬ p.numbers.length ≠ 6 := by omega
      have hfind : LotteryLab.firstOutOfRange p.numbers = none := by
        apply List.find?_eq_none.mpr
        intro n hn
        have := h2 n hn
        simp
        omega
      have h3' : ¬ p.numbers.dedup.length ≠ 6 := by
        rw [h3.dedup]; omega
      have h4' : ¬ LotteryLab.PyDate.le p.draw_date today = false := by
        rw [h4]; simp
      have h5' : ¬ p.draw_number ≤ 0 := by omega
      unfold LotteryLab.validate_draw
      rw [if_neg h1', hfind, if_neg h3', if_neg h4', if_neg h5']
  · intro h
    unfold LotteryLab.validate_draw at h ⊢
    by_cases h1 : p.numbers.length ≠ 6
    · rw [if_pos h1]
      exact ⟨"must have 6 numbers", rfl, by decide⟩
    · rw [if_neg h1] at h ⊢
      cases hfind : LotteryLab.firstOutOfRange p.numbers with
      | some n =>
        exact ⟨_, rfl, LotteryLab.append_ne_empty_left _ _ (by decide)⟩
      | none =>
        rw [hfind] at h
        by_cases h3 : p.numbers.dedup.length ≠ 6
        · rw [if_pos h3]
          exact ⟨"numbers must be unique", rfl, by decide⟩
        · rw [if_neg h3] at h ⊢
          by_cases h4 : LotteryLab.PyDate.le p.draw_date today = false
          · rw [if_pos h4]
            exact ⟨"date in future", rfl, by decide⟩
          · rw [if_neg h4] at h ⊢
            by_cases h5 : p.draw_number ≤ 0
            · rw [if_pos h5]
              exact ⟨"draw_number must be positive", rfl, by decide⟩
            · rw [if_neg h5] at h
              simp at h

/-- Witness for C2 at a concrete draw. -/
theorem C2_validate_draw_witness :
    (LotteryLab.validate_draw ⟨2025, 1, 1⟩
      ⟨10, ⟨1994, 1, 5⟩, [1, 5, 11, 23, 31, 48]⟩).ok = true := by
  exact (C2_validate_draw ⟨2025, 1, 1⟩ ⟨10, ⟨1994, 1, 5⟩, [1, 5, 11, 23, 31, 48]⟩).1.mpr
    ⟨by decide, by decide, by decide, by decide, by decide⟩

namespace LotteryLab

/-- `normalize_game_type` from `utils/normalizer.py`. -/
def normalize_game_type (raw : String) (provider : Option String := none) : String :=
  let v := String.mk ((pyStrip raw.toList).map Char.toLower)
  let _p := String.mk ((pyStrip (provider.getD "").toList).map Char.toLower)
  if v = "lotto plus" ∨ v = "plus" ∨ v = "lotto_plus" then "lotto_plus"
  else if v = "lotto" then "lotto"
  else if v = "mini lotto" ∨ v = "minilotto" ∨ v = "mini_lotto" then "mini_lotto"
  else String.mk (v.toList.map (fun c => if c = ' ' then '_' else c))

/-- A `Draw` ORM row as constructed by the importers. -/
structure DrawRow where
  draw_number : Int
  draw_date : PyDate
  game_type : String
  game_provider : String
  numbers : String
  jackpot : Option Int
deriving DecidableEq, Repr

/-- The loop state of `import_new_from_lines` / `import_lines`:
the `per_date_count` dict, the rows added to the session so far (in order),
and the two counters. -/
structure ImportState where
  perDate : PyDate → Nat
  rows : List DrawRow
  inserted : Nat
  skipped : Nat

/-- One iteration of the `for parsed in parse_initial_txt(lines)` loop, shared
verbatim by `scheduler.import_new_from_lines` and `ingestion.import_lines`.
`maxId` is the value of `max_id` read once before the loop. -/
def importStep (today : PyDate) (maxId : Int) (provider : String)
    (st : ImportState) (parsed : ParsedDraw) : ImportState :=
  if parsed.draw_number ≤ maxId then
    { st with skipped := st.skipped + 1 }
  else if (validate_draw today parsed).ok = false then
    { st with skipped := st.skipped + 1 }
  else
    let idx := st.perDate parsed.draw_date
    let gt0 : String := if idx = 0 then "lotto" else "lotto_plus"
    let gt := normalize_game_type gt0 (some provider)
    { perDate := fun d => if d = parsed.draw_date then idx + 1 else st.perDate d,
      rows := st.rows ++ [⟨parsed.draw_number, parsed.draw_date, gt, provider,
                serialize_numbers parsed.numbers, none⟩],
      inserted := st.inserted + 1,
      skipped := st.skipped }

/-- The importer body (`import_new_from_lines` / `import_lines`) applied to the
already-parsed records: `max_id` is read once at the start and stays fixed. -/
def importRun (today : PyDate) (maxId : Int) (provider : String)
    (records : List ParsedDraw) : ImportState :=
  records.foldl (importStep today maxId provider) ⟨fun _ => 0, [], 0, 0⟩

/-- A record passes the importer's two gates: strictly above the high-water
mark and accepted by `validate_draw`. -/
def acceptRecord (today : PyDate) (maxId : Int) (p : ParsedDraw) : Bool :=
  decide (maxId < p.draw_number) && (validate_draw today p).ok

lemma importStep_accept (today : PyDate) (maxId : Int) (provider : String)
    (st : ImportState) (p : ParsedDraw) (h : acceptRecord today maxId p = true) :
    importStep today maxId provider st p =
    { perDate := fun d => if d = p.draw_date then st.perDate p.draw_date + 1 else st.perDate d,
      rows := st.rows ++ [⟨p.draw_number, p.draw_date,
                normalize_game_type (if st.perDate p.draw_date = 0 then "lotto" else "lotto_plus")
                  (some provider),
                provider, serialize_numbers p.numbers, none⟩],
      inserted := st.inserted + 1,
      skipped := st.skipped } := by
  unfold acceptRecord at h
  simp only [Bool.and_eq_true, decide_eq_true_eq] at h
  unfold importStep
  rw [if_neg (by omega), if_neg (by simp [h.2])]

lemma importStep_reject (today : PyDate) (maxId : Int) (provider : String)
    (st : ImportState) (p : ParsedDraw) (h : acceptRecord today maxId p = false) :
    importStep today maxId provider st p = { st with skipped := st.skipped + 1 } := by
  unfold acceptRecord at h
  unfold importStep
  by_cases h1 : p.draw_number ≤ maxId
  · rw [if_pos h1]
  · rw [if_neg h1]
    have : (validate_draw today p).ok = false := by
      cases hok : (validate_draw today p).ok with
      | false => rfl
      | true => simp [hok, not_le.mp h1] at h
    rw [if_pos this]

/-- The projection of a row the parser determines (independent of game-type state). -/
def rowData (r : DrawRow) : Int × PyDate × String :=
  (r.draw_number, r.draw_date, r.numbers)

lemma importRun_fold_counts (today : PyDate) (maxId : Int) (provider : String) :
    ∀ (records : List ParsedDraw) (st : ImportState),
    (records.foldl (importStep today maxId provider) st).inserted =
      st.inserted + (records.filter (acceptRecord today maxId)).length ∧
    (records.foldl (importStep today maxId provider) st).skipped =
      st.skipped + (records.filter (fun p => !acceptRecord today maxId p)).length ∧
    (records.foldl (importStep today maxId provider) st).rows.map rowData =
      st.rows.map rowData ++ (records.filter (acceptRecord today maxId)).map
        (fun p => (p.draw_number, p.draw_date, serialize_numbers p.numbers)) := by
  intro records
  induction records with
  | nil => intro st; simp
  | cons p rest ih =>
    intro st
    cases hacc : acceptRecord today maxId p with
    | true =>
      rw [List.foldl_cons, importStep_accept today maxId provider st p hacc]
      obtain ⟨i1, i2, i3⟩ := ih _
      refine ⟨?_, ?_, ?_⟩
      · rw [i1]; simp [List.filter_cons, hacc]; omega
      · rw [i2]; simp [List.filter_cons, hacc]
      · rw [i3]; simp [List.filter_cons, hacc, rowData]
    | false =>
      rw [List.foldl_cons, importStep_reject today maxId provider st p hacc]
      obtain ⟨i1, i2, i3⟩ := ih _
      refine ⟨?_, ?_, ?_⟩
      · rw [i1]; simp [List.filter_cons, hacc]
      · rw [i2]; simp [List.filter_cons, hacc]; omega
      · rw [i3]; simp [List.filter_cons, hacc]

end LotteryLab

/-- C1: the importer reads the high-water mark `max_id` once (it is fixed for the
whole run); a parsed record is inserted iff its `draw_number` exceeds it and
`validate_draw` accepts it; every other parsed record is skipped, and
`inserted + skipped` equals the number of parsed records. -/
theorem C1_import_high_water_mark (today : LotteryLab.PyDate) (maxId : Int)
    (provider : String) (records : List LotteryLab.ParsedDraw) :
    (LotteryLab.importRun today maxId provider records).inserted =
      (records.filter (LotteryLab.acceptRecord today maxId)).length ∧
    (LotteryLab.importRun today maxId provider records).skipped =
      (records.filter (fun p => !LotteryLab.acceptRecord today maxId p)).length ∧
    (LotteryLab.importRun today maxId provider records).rows.map LotteryLab.rowData =
      (records.filter (LotteryLab.acceptRecord today maxId)).map
        (fun p => (p.draw_number, p.draw_date, LotteryLab.serialize_numbers p.numbers)) ∧
    (LotteryLab.importRun today maxId provider records).inserted +
      (LotteryLab.importRun today maxId provider records).skipped = records.length := by
  obtain ⟨i1, i2, i3⟩ :=
    LotteryLab.importRun_fold_counts today maxId provider records ⟨fun _ => 0, [], 0, 0⟩
  refine ⟨by simpa using i1, by simpa using i2, by simpa using i3, ?_⟩
  have hpart := List.length_eq_length_filter_add (l := records)
    (LotteryLab.acceptRecord today maxId)
  simp only [LotteryLab.importRun]
  simp only [LotteryLab.importRun] at i1 i2
  rw [i1, i2]
  omega

namespace LotteryLab

/-- The per-date game-type assignment the importer produces: within one run,
the first inserted row of a draw date is `"lotto"`, each later one `"lotto_plus"`. -/
def gameTypeSpec (rows : List DrawRow) : Prop :=
  ∀ i (hi : i < rows.length),
    rows[i].game_type =
      if (rows.take i).countP (fun r => decide (r.draw_date = rows[i].draw_date)) = 0
      then "lotto" else "lotto_plus"

lemma gameTypeSpec_append (rows : List DrawRow) (r : DrawRow)
    (h : gameTypeSpec rows)
    (hr : r.game_type =
      if rows.countP (fun x => decide (x.draw_date = r.draw_date)) = 0
      then "lotto" else "lotto_plus") :
    gameTypeSpec (rows ++ [r]) := by
  intro i hi
  simp only [List.length_append, List.length_cons, List.length_nil] at hi
  by_cases hlt : i < rows.length
  · have hg : (rows ++ [r])[i] = rows[i] := List.getElem_append_left hlt
    rw [hg, List.take_append_of_le_length (by omega)]
    exact h i hlt
  · have hieq : i = rows.length := by omega
    subst hieq
    have hg : (rows ++ [r])[rows.length] = r := by simp
    rw [hg, List.take_append_of_le_length (le_refl _), List.take_length]
    exact hr

lemma importRun_fold_gameType (today : PyDate) (maxId : Int) (provider : String) :
    ∀ (records : List ParsedDraw) (st : ImportState),
    (∀ d, st.perDate d = st.rows.countP (fun r => decide (r.draw_date = d))) →
    gameTypeSpec st.rows →
    gameTypeSpec (records.foldl (importStep today maxId provider) st).rows := by
  intro records
  induction records with
  | nil => intro st _ h2; exact h2
  | cons p rest ih =>
    intro st h1 h2
    rw [List.foldl_cons]
    cases hacc : acceptRecord today maxId p with
    | false =>
      rw [importStep_reject today maxId provider st p hacc]
      exact ih _ h1 h2
    | true =>
      rw [importStep_accept today maxId provider st p hacc]
      apply ih
      · intro d
        show (if d = p.draw_date then st.perDate p.draw_date + 1 else st.perDate d) = _
        by_cases hd : d = p.draw_date
        · subst hd
          rw [if_pos rfl, List.countP_append, h1 p.draw_date]
          simp [List.countP_cons]
        · rw [if_neg hd, List.countP_append, h1 d]
          simp [List.countP_cons, Ne.symm hd]
      · apply gameTypeSpec_append _ _ h2
        show normalize_game_type (if st.perDate p.draw_date = 0 then "lotto" else "lotto_plus")
            (some provider) =
          if st.rows.countP (fun x => decide (x.draw_date = p.draw_date)) = 0
          then "lotto" else "lotto_plus"
        rw [h1 p.draw_date]
        by_cases hz : st.rows.countP (fun x => decide (x.draw_date = p.draw_date)) = 0
        · rw [if_pos hz]; rfl
        · rw [if_neg hz]; rfl

end LotteryLab

/-- C9: within a single import run, the first accepted record of each draw date
is stored with game type `"lotto"` and every later accepted record with the
same date is stored with `"lotto_plus"`, whatever the order of dates. -/
theorem C9_game_type_per_date (today : LotteryLab.PyDate) (maxId : Int)
    (provider : String) (records : List LotteryLab.ParsedDraw)
    (i : Nat) (hi : i < (LotteryLab.importRun today maxId provider records).rows.length) :
    ((LotteryLab.importRun today maxId provider records).rows)[i].game_type =
      if (((LotteryLab.importRun today maxId provider records).rows.take i).countP
            (fun r => decide (r.draw_date =
              ((LotteryLab.importRun today maxId provider records).rows)[i].draw_date))) = 0
      then "lotto" else "lotto_plus" :=
  LotteryLab.importRun_fold_gameType today maxId provider records
    ⟨fun _ => 0, [], 0, 0⟩ (fun _ => rfl) (fun i hi => absurd hi (by simp)) i hi

/-- Witness for C9: an import run with two records on the same date; the second
row of that date gets `"lotto_plus"`. -/
theorem C9_game_type_per_date_witness :
    ((LotteryLab.importRun ⟨2025, 1, 1⟩ 0 "pl_totalizator"
      [⟨1, ⟨2000, 1, 1⟩, [1, 2, 3, 4, 5, 6]⟩,
       ⟨2, ⟨2000, 1, 1⟩, [7, 8, 9, 10, 11, 12]⟩]).rows.get
        ⟨1, by decide⟩).game_type = "lotto_plus" := by
  have h := C9_game_type_per_date ⟨2025, 1, 1⟩ 0 "pl_totalizator"
      [⟨1, ⟨2000, 1, 1⟩, [1, 2, 3, 4, 5, 6]⟩,
       ⟨2, ⟨2000, 1, 1⟩, [7, 8, 9, 10, 11, 12]⟩] 1 (by decide)
  rw [List.get_eq_getElem, h]
  decide

namespace LotteryLab

/-! ### Character-level string primitives for the Python text pipeline.
Python `str` values are modelled as `List Char` (wrapped into `String` at the
API boundary).  Python `int(...)` is modelled for its documented surface:
optional surrounding whitespace, one optional sign, then decimal digits
(digit-group underscores are not modelled; no claim depends on them). -/








lemma dropWhile_eq_self_of_forall {p : Char → Bool} {l : List Char}
    (h : ∀ c ∈ l, p c = false) : l.dropWhile p = l := by
  cases l with
  | nil => rfl
  | cons x xs =>
    rw [List.dropWhile_cons, if_neg]
    simp [h x (by simp)]

lemma pyStrip_eq_self {l : List Char} (h : ∀ c ∈ l, isPySpace c = false) :
    pyStrip l = l := by
  unfold pyStrip
  rw [dropWhile_eq_self_of_forall h,
    dropWhile_eq_self_of_forall (fun c hc => h c (List.mem_reverse.mp hc)),
    List.reverse_reverse]

lemma splitOnChar_ne_nil (c : Char) (l : List Char) : splitOnChar c l ≠ [] := by
  induction l with
  | nil => simp [splitOnChar]
  | cons x xs ih =>
    rw [splitOnChar]
    by_cases hx : x = c
    · simp [hx]
    · rw [if_neg hx]
      cases hs : splitOnChar c xs with
      | nil => simp
      | cons h t => simp

lemma splitOnChar_no_sep (c : Char) (l : List Char) (h : ∀ x ∈ l, x ≠ c) :
    splitOnChar c l = [l] := by
  induction l with
  | nil => rfl
  | cons x xs ih =>
    rw [splitOnChar, if_neg (h x (by simp)), ih (fun y hy => h y (by simp [hy]))]

lemma splitOnChar_append (c : Char) (l₁ l₂ : List Char) (h : ∀ x ∈ l₁, x ≠ c) :
    splitOnChar c (l₁ ++ c :: l₂) = l₁ :: splitOnChar c l₂ := by
  induction l₁ with
  | nil => simp [splitOnChar]
  | cons x xs ih =>
    rw [List.cons_append, splitOnChar, if_neg (h x (by simp)),
      ih (fun y hy => h y (by simp [hy]))]

lemma pySplitOnce_append (c : Char) (l₁ l₂ : List Char) (h : ∀ x ∈ l₁, x ≠ c) :
    pySplitOnce c (l₁ ++ c :: l₂) = some (l₁, l₂) := by
  induction l₁ with
  | nil => simp [pySplitOnce]
  | cons x xs ih =>
    rw [List.cons_append, pySplitOnce, if_neg (h x (by simp)),
      ih (fun y hy => h y (by simp [hy]))]

end LotteryLab

namespace LotteryLab

lemma charDigit_ofNat {d : Nat} (hd : d < 10) : charDigit (Char.ofNat (48 + d)) = d := by
  interval_cases d <;> decide

lemma isDigit_ofNat {d : Nat} (hd : d < 10) : (Char.ofNat (48 + d)).isDigit = true := by
  interval_cases d <;> decide

lemma isDigit_ne_of {c x : Char} (h : c.isDigit = true) (hx : x.isDigit = false) : c ≠ x := by
  intro he
  subst he
  rw [h] at hx
  cases hx

lemma digit_not_space {c : Char} (h : c.isDigit = true) : isPySpace c = false := by
  cases hsp : isPySpace c with
  | false => rfl
  | true =>
    unfold isPySpace at hsp
    simp only [Bool.or_eq_true, decide_eq_true_eq] at hsp
    rcases hsp with ((((h1 | h1) | h1) | h1) | h1) | h1 <;> (subst h1; exact absurd h (by decide))

lemma natToChars_digits (n : Nat) : ∀ c ∈ natToChars n, c.isDigit = true := by
  intro c hc
  unfold natToChars at hc
  by_cases h0 : n = 0
  · rw [if_pos h0] at hc
    simp at hc
    subst hc
    decide
  · rw [if_neg h0] at hc
    simp only [List.mem_map, List.mem_reverse] at hc
    obtain ⟨d, hd, rfl⟩ := hc
    exact isDigit_ofNat (Nat.digits_lt_base (by norm_num) hd)

lemma natToChars_ne_nil (n : Nat) : natToChars n ≠ [] := by
  unfold natToChars
  by_cases h0 : n = 0
  · simp [h0]
  · rw [if_neg h0]
    simp [Nat.digits_ne_nil_iff_ne_zero.mpr h0]

lemma foldl_mul_add_reverse (ds : List Nat) :
    ∀ a : Nat, (ds.reverse).foldl (fun acc d => acc * 10 + d) a =
      a * 10 ^ ds.length + Nat.ofDigits 10 ds := by
  induction ds with
  | nil => intro a; simp
  | cons d L ih =>
    intro a
    rw [List.reverse_cons, List.foldl_append]
    simp only [List.foldl_cons, List.foldl_nil]
    rw [ih, Nat.ofDigits_cons]
    simp only [List.length_cons, pow_succ]
    ring

lemma foldl_digit_chars (X : List Nat) (hX : ∀ d ∈ X, d < 10) : ∀ a : Nat,
    X.foldl (fun acc d => acc * 10 + charDigit (Char.ofNat (48 + d))) a =
    X.foldl (fun acc d => acc * 10 + d) a := by
  induction X with
  | nil => intro a; rfl
  | cons d L ih =>
    intro a
    simp only [List.foldl_cons]
    rw [charDigit_ofNat (hX d (by simp))]
    exact ih (fun x hx => hX x (by simp [hx])) _

lemma digitsToNat_natToChars (n : Nat) : digitsToNat (natToChars n) = n := by
  unfold natToChars digitsToNat
  by_cases h0 : n = 0
  · simp [h0, charDigit]
  · rw [if_neg h0, List.foldl_map]
    rw [foldl_digit_chars _ (fun d hd =>
      Nat.digits_lt_base (by norm_num) (List.mem_reverse.mp hd))]
    rw [foldl_mul_add_reverse]
    simp [Nat.ofDigits_digits]

lemma pyParseIntCore_digits (l : List Char) (hne : l ≠ [])
    (hd : ∀ c ∈ l, c.isDigit = true) :
    pyParseIntCore l = some ((digitsToNat l : Nat) : Int) := by
  cases l with
  | nil => exact absurd rfl hne
  | cons c rest =>
    rw [pyParseIntCore]
    rw [if_neg (isDigit_ne_of (hd c (by simp)) (by decide)),
      if_neg (isDigit_ne_of (hd c (by simp)) (by decide)),
      if_pos (List.all_eq_true.mpr (fun x hx => hd x hx))]

lemma intToChars_chars (n : Int) :
    ∀ c ∈ intToChars n, c.isDigit = true ∨ c = '-' := by
  intro c hc
  unfold intToChars at hc
  by_cases hn : n < 0
  · rw [if_pos hn] at hc
    rcases List.mem_cons.mp hc with h | h
    · exact Or.inr h
    · exact Or.inl (natToChars_digits _ c h)
  · rw [if_neg hn] at hc
    exact Or.inl (natToChars_digits _ c hc)

lemma intToChars_ne_nil (n : Int) : intToChars n ≠ [] := by
  unfold intToChars
  by_cases hn : n < 0
  · simp [hn]
  · rw [if_neg hn]
    exact natToChars_ne_nil _

lemma intToChars_not_space (n : Int) : ∀ c ∈ intToChars n, isPySpace c = false := by
  intro c hc
  rcases intToChars_chars n c hc with h | h
  · exact digit_not_space h
  · subst h; decide

lemma pyParseInt_intToChars (n : Int) : pyParseInt (intToChars n) = some n := by
  unfold pyParseInt
  rw [pyStrip_eq_self (intToChars_not_space n)]
  unfold intToChars
  by_cases hn : n < 0
  · rw [if_pos hn, pyParseIntCore, if_pos rfl,
      if_pos ⟨natToChars_ne_nil _, List.all_eq_true.mpr (natToChars_digits _)⟩,
      digitsToNat_natToChars]
    congr 1
    omega
  · rw [if_neg hn]
    cases hX : natToChars n.natAbs with
    | nil => exact absurd hX (natToChars_ne_nil _)
    | cons c rest =>
      rw [pyParseIntCore_digits (c :: rest) (by simp)
        (fun x hx => natToChars_digits n.natAbs x (hX ▸ hx))]
      rw [← hX, digitsToNat_natToChars]
      congr 1
      omega

end LotteryLab

namespace LotteryLab

/-- The element-wise `int(x)` of a Python list comprehension: the whole
computation fails (raises) as soon as one chunk fails to parse. -/
def mapIntAll : List (List Char) → Option (List Int)
  | [] => some []
  | x :: xs =>
    match pyParseInt x, mapIntAll xs with
    | some v, some vs => some (v :: vs)
    | _, _ => none

/-- `_parse_numbers` from `analysis/frequency.py`:
`[int(x) for x in numbers_csv.split(",") if x]` (empty chunks are skipped;
a non-empty unparsable chunk raises, modelled by `none`). -/
def _parse_numbers (numbers_csv : String) : Option (List Int) :=
  mapIntAll ((splitOnChar ',' numbers_csv.toList).filter (fun x => !x.isEmpty))

lemma split_intercalate (c : Char) :
    ∀ (parts : List (List Char)), parts ≠ [] →
    (∀ p ∈ parts, ∀ x ∈ p, x ≠ c) →
    splitOnChar c (List.intercalate [c] parts) = parts := by
  intro parts
  induction parts with
  | nil => intro h; exact absurd rfl h
  | cons p ps ih =>
    intro _ h
    cases ps with
    | nil =>
      simp only [List.intercalate]
      simp only [List.intersperse_singleton, List.flatten]
      rw [List.append_nil]
      exact splitOnChar_no_sep c p (h p (by simp))
    | cons q qs =>
      have hicc : List.intercalate [c] (p :: q :: qs) =
          p ++ c :: List.intercalate [c] (q :: qs) := by
        simp [List.intercalate, List.intersperse]
      rw [hicc, splitOnChar_append c p _ (h p (by simp))]
      rw [ih (by simp) (fun r hr x hx => h r (by simp [hr]) x hx)]

lemma mapIntAll_intToChars (ns : List Int) :
    mapIntAll (ns.map intToChars) = some ns := by
  induction ns with
  | nil => rfl
  | cons n rest ih =>
    simp only [List.map_cons]
    rw [mapIntAll, pyParseInt_intToChars, ih]

end LotteryLab

/-- C8: parsing the serialized form round-trips: for every list of integers,
`_parse_numbers (serialize_numbers ns) = ns` (and the empty list serializes to
`""`, which parses back to the empty list). -/
theorem C8_serialize_roundtrip (ns : List Int) :
    LotteryLab._parse_numbers (LotteryLab.serialize_numbers ns) = some ns := by
  unfold LotteryLab._parse_numbers LotteryLab.serialize_numbers
  have htl : (String.mk (List.intercalate [','] (ns.map LotteryLab.intToChars))).toList =
      List.intercalate [','] (ns.map LotteryLab.intToChars) := rfl
  rw [htl]
  cases ns with
  | nil => rfl
  | cons n rest =>
    rw [LotteryLab.split_intercalate ',' _ (by simp)
      (fun p hp x hx => by
        obtain ⟨m, _, rfl⟩ := List.mem_map.mp hp
        rcases LotteryLab.intToChars_chars m x hx with h | h
        · exact LotteryLab.isDigit_ne_of h (by decide)
        · subst h; decide)]
    rw [List.filter_eq_self.mpr (fun p hp => by
      obtain ⟨m, _, rfl⟩ := List.mem_map.mp hp
      simp [List.isEmpty_iff, LotteryLab.intToChars_ne_nil m])]
    exact LotteryLab.mapIntAll_intToChars (n :: rest)

namespace LotteryLab

/-! ### `file_parser.parse_initial_txt`
`strptime(date_str, "%d.%m.%Y")` matches day as 1-2 digits in 1..31, month as
1-2 digits in 1..12, year as exactly 4 digits, consuming the whole string,
then `datetime.date` validates the day against the month length (Gregorian
leap rule) and `year >= 1`. -/

/-- One `%d`/`%m` field: prefer a 2-digit match with value in `1..maxVal`,
else a single non-zero digit (regex alternation order of CPython strptime;
when the 2-digit candidate is followed by a non-dot the 1-digit fallback
fails on the same next character, so the preference is deterministic). -/
def parseTwoOrOne (maxVal : Nat) : List Char → Option (Nat × List Char)
  | c1 :: c2 :: rest =>
    if c1.isDigit ∧ c2.isDigit ∧ 1 ≤ 10 * charDigit c1 + charDigit c2 ∧
        10 * charDigit c1 + charDigit c2 ≤ maxVal then
      some (10 * charDigit c1 + charDigit c2, rest)
    else if c1.isDigit ∧ 1 ≤ charDigit c1 then some (charDigit c1, c2 :: rest)
    else none
  | [c1] => if c1.isDigit ∧ 1 ≤ charDigit c1 then some (charDigit c1, []) else none
  | [] => none

/-- Gregorian leap year, as `calendar.isleap` / `datetime`. -/
def isLeap (y : Nat) : Bool := (y % 4 = 0 && y % 100 ≠ 0) || y % 400 = 0

/-- Days in a month, as `datetime`. -/
def daysInMonth (y m : Nat) : Nat :=
  if m = 2 then (if isLeap y then 29 else 28)
  else if m = 4 ∨ m = 6 ∨ m = 9 ∨ m = 11 then 30 else 31

/-- `datetime.strptime(date_str, "%d.%m.%Y").date()`, `none` for `ValueError`. -/
def parseDateDMY (l : List Char) : Option PyDate :=
  match parseTwoOrOne 31 l with
  | none => none
  | some (d, r1) =>
    match r1 with
    | '.' :: r2 =>
      match parseTwoOrOne 12 r2 with
      | none => none
      | some (m, r3) =>
        match r3 with
        | '.' :: y1 :: y2 :: y3 :: y4 :: rest =>
          if y1.isDigit ∧ y2.isDigit ∧ y3.isDigit ∧ y4.isDigit ∧ rest = [] then
            let y := 1000 * charDigit y1 + 100 * charDigit y2 +
              10 * charDigit y3 + charDigit y4
            if 1 ≤ y ∧ d ≤ daysInMonth y m then some ⟨y, m, d⟩ else none
          else none
        | _ => none
    | _ => none

/-- `[int(x) for x in nums_str.split(",")]` — no empty-chunk skipping here
(contrast `_parse_numbers`); any failing chunk raises, modelled by `none`. -/
def parseNumbersStrict (l : List Char) : Option (List Int) :=
  mapIntAll (splitOnChar ',' l)

/-- The per-line body of `parse_initial_txt`: each `try/except ... continue`
is an `Option` step; `none` means the line is skipped. -/
def parseLine (raw : String) : Option ParsedDraw :=
  if (pyStrip raw.toList).isEmpty then none
  else do
    let (left, rest) ← pySplitOnce '.' (pyStrip raw.toList)
    let draw_number ← pyParseInt left
    let (date_str, nums_str) ← pySplitOnce ' ' (pyStrip rest)
    let draw_date ← parseDateDMY date_str
    let numbers ← parseNumbersStrict nums_str
    pure ⟨draw_number, draw_date, numbers⟩

/-- `parse_initial_txt` from `file_parser.py`: a generator yielding one
`ParsedDraw` per line that survives every parsing step. -/
def parse_initial_txt (lines : List String) : List ParsedDraw :=
  lines.filterMap parseLine

end LotteryLab

namespace LotteryLab

lemma dropWhile_cons_false {p : Char → Bool} (x : Char) (xs : List Char) (h : p x = false) :
    (x :: xs).dropWhile p = x :: xs := by
  rw [List.dropWhile_cons, if_neg]
  simp [h]

lemma pyStrip_eq_self_of_ends (l : List Char)
    (h1 : ∀ c, l.head? = some c → isPySpace c = false)
    (h2 : ∀ c, l.getLast? = some c → isPySpace c = false) :
    pyStrip l = l := by
  cases l with
  | nil => rfl
  | cons x xs =>
    unfold pyStrip
    rw [dropWhile_cons_false x xs (h1 x rfl)]
    cases hr : (x :: xs).reverse with
    | nil => exact absurd hr (by simp)
    | cons y t =>
      have hy : (x :: xs).getLast? = some y := by
        rw [← List.head?_reverse, hr]
        rfl
      rw [dropWhile_cons_false y t (h2 y hy), ← hr, List.reverse_reverse]

lemma pyStrip_cons_space (l : List Char) : pyStrip (' ' :: l) = pyStrip l := by
  unfold pyStrip
  rw [List.dropWhile_cons, if_pos (by decide)]

lemma pyParseInt_digits (l : List Char) (hne : l ≠ [])
    (hd : ∀ c ∈ l, c.isDigit = true) :
    pyParseInt l = some ((digitsToNat l : Nat) : Int) := by
  unfold pyParseInt
  rw [pyStrip_eq_self (fun c hc => digit_not_space (hd c hc))]
  exact pyParseIntCore_digits l hne hd

lemma parseTwoOrOne_head {v : Nat} {l : List Char} {pr : Nat × List Char}
    (h : parseTwoOrOne v l = some pr) :
    ∃ c rest, l = c :: rest ∧ c.isDigit = true := by
  cases l with
  | nil => rw [parseTwoOrOne] at h; cases h
  | cons c1 tail =>
    cases tail with
    | nil =>
      refine ⟨c1, [], rfl, ?_⟩
      rw [parseTwoOrOne] at h
      split at h
      · rename_i hB; exact hB.1
      · cases h
    | cons c2 rest =>
      refine ⟨c1, c2 :: rest, rfl, ?_⟩
      rw [parseTwoOrOne] at h
      split at h
      · rename_i hA; exact hA.1
      · split at h
        · rename_i hB; exact hB.1
        · cases h

lemma parseDateDMY_head {l : List Char} {d : PyDate} (h : parseDateDMY l = some d) :
    ∃ c rest, l = c :: rest ∧ c.isDigit = true := by
  unfold parseDateDMY at h
  cases hp : parseTwoOrOne 31 l with
  | none => rw [hp] at h; cases h
  | some pr => exact parseTwoOrOne_head hp

lemma parseNumbersStrict_ne_nil {l : List Char} {ns : List Int}
    (h : parseNumbersStrict l = some ns) : l ≠ [] := by
  intro he
  subst he
  have hn : parseNumbersStrict ([] : List Char) = none := rfl
  rw [hn] at h
  cases h

lemma mem_of_getLast?_eq {l : List Char} {c : Char} (h : l.getLast? = some c) : c ∈ l := by
  obtain ⟨hne, rfl⟩ := List.mem_getLast?_eq_getLast (Option.mem_def.mpr h)
  exact List.getLast_mem hne

end LotteryLab

namespace LotteryLab

/-- C3: `parse_initial_txt` never raises (it is the total `filterMap` of the
per-line parser, so every line yields at most one record and failing lines are
silently dropped); a blank line is skipped; and every line of the form
`<idx>. <dd.mm.yyyy> <n1,n2,...>` yields exactly one `ParsedDraw` with the
index as `draw_number`, the parsed date, and the comma-separated numbers. -/
theorem C3_parse_initial_txt :
    (∀ lines : List String,
      parse_initial_txt lines = lines.filterMap parseLine) ∧
    (∀ raw : String, pyStrip raw.toList = [] → parseLine raw = none) ∧
    (∀ (idxStr dateStr numsStr : List Char) (d : PyDate) (ns : List Int),
      idxStr ≠ [] →
      (∀ c ∈ idxStr, c.isDigit = true) →
      parseDateDMY dateStr = some d →
      (∀ c ∈ dateStr, c.isDigit = true ∨ c = '.') →
      parseNumbersStrict numsStr = some ns →
      (∀ c ∈ numsStr, c.isDigit = true ∨ c = ',' ∨ c = '-') →
      parseLine (String.mk (idxStr ++ '.' :: ' ' :: (dateStr ++ ' ' :: numsStr))) =
        some ⟨((digitsToNat idxStr : Nat) : Int), d, ns⟩) := by
  refine ⟨fun lines => rfl, ?_, ?_⟩
  · intro raw hstrip
    unfold parseLine
    rw [hstrip]
    rfl
  · intro idxStr dateStr numsStr d ns hne hdig hdate hdchars hnums hnchars
    obtain ⟨c0, idxTail, rfl⟩ := List.exists_cons_of_ne_nil hne
    obtain ⟨cd, dTail, hdeq, hcd⟩ := parseDateDMY_head hdate
    have hnne := parseNumbersStrict_ne_nil hnums
    have htl : (String.mk ((c0 :: idxTail) ++ '.' :: ' ' ::
        (dateStr ++ ' ' :: numsStr))).toList
        = (c0 :: idxTail) ++ '.' :: ' ' :: (dateStr ++ ' ' :: numsStr) := rfl
    have hlastN : ∀ c, (dateStr ++ ' ' :: numsStr).getLast? = some c →
        isPySpace c = false := by
      intro c hc
      have h2 : (' ' :: numsStr) = [' '] ++ numsStr := rfl
      rw [List.getLast?_append_of_ne_nil _ (by simp), h2,
        List.getLast?_append_of_ne_nil _ hnne] at hc
      rcases hnchars c (mem_of_getLast?_eq hc) with h | h | h
      · exact digit_not_space h
      · subst h; decide
      · subst h; decide
    have hstrip1 : pyStrip ((c0 :: idxTail) ++ '.' :: ' ' ::
        (dateStr ++ ' ' :: numsStr))
        = (c0 :: idxTail) ++ '.' :: ' ' :: (dateStr ++ ' ' :: numsStr) := by
      apply pyStrip_eq_self_of_ends
      · intro c hc
        rw [List.cons_append] at hc
        simp only [List.head?_cons, Option.some.injEq] at hc
        subst hc
        exact digit_not_space (hdig c0 (by simp))
      · intro c hc
        have h3 : (c0 :: idxTail) ++ '.' :: ' ' :: (dateStr ++ ' ' :: numsStr)
            = ((c0 :: idxTail) ++ ['.', ' ']) ++ (dateStr ++ ' ' :: numsStr) := by
          simp
        rw [h3, List.getLast?_append_of_ne_nil _ (by
          intro hcon
          exact hnne (by simpa using List.append_eq_nil.mp hcon |>.2))] at hc
        exact hlastN c hc
    have hsplit1 : pySplitOnce '.' ((c0 :: idxTail) ++ '.' :: ' ' ::
        (dateStr ++ ' ' :: numsStr))
        = some (c0 :: idxTail, ' ' :: (dateStr ++ ' ' :: numsStr)) :=
      pySplitOnce_append '.' _ _ (fun x hx => isDigit_ne_of (hdig x hx) (by decide))
    have hint : pyParseInt (c0 :: idxTail)
        = some ((digitsToNat (c0 :: idxTail) : Nat) : Int) :=
      pyParseInt_digits _ (by simp) hdig
    have hstrip2 : pyStrip (' ' :: (dateStr ++ ' ' :: numsStr))
        = dateStr ++ ' ' :: numsStr := by
      rw [pyStrip_cons_space]
      apply pyStrip_eq_self_of_ends
      · intro c hc
        rw [hdeq, List.cons_append] at hc
        simp only [List.head?_cons, Option.some.injEq] at hc
        subst hc
        exact digit_not_space hcd
      · exact hlastN
    have hsplit2 : pySplitOnce ' ' (dateStr ++ ' ' :: numsStr)
        = some (dateStr, numsStr) :=
      pySplitOnce_append ' ' _ _ (fun x hx => by
        rcases hdchars x hx with h | h
        · exact isDigit_ne_of h (by decide)
        · subst h; decide)
    unfold parseLine
    rw [htl, hstrip1]
    rw [if_neg (by simp)]
    rw [hsplit1]
    simp only [Option.bind_eq_bind, Option.some_bind]
    rw [hint]
    simp only [Option.some_bind]
    rw [hstrip2, hsplit2]
    simp only [Option.some_bind]
    rw [hdate]
    simp only [Option.some_bind]
    rw [hnums]
    simp only [Option.some_bind]
    rfl

end LotteryLab

namespace LotteryLab

/-- Witness for C3: the canonical MBNet line shape parses to the expected record. -/
theorem C3_parse_initial_txt_witness :
    parseLine (String.mk (['1', '2'] ++ '.' :: ' ' ::
      ("05.01.1994".toList ++ ' ' :: "1,2".toList))) =
      some ⟨12, ⟨1994, 1, 5⟩, [1, 2]⟩ := by
  have h := C3_parse_initial_txt.2.2 ['1', '2'] "05.01.1994".toList "1,2".toList
    ⟨1994, 1, 5⟩ [1, 2] (by decide) (by decide) (by decide) (by decide)
    (by decide) (by decide)
  exact h

end LotteryLab

namespace LotteryLab

/-! ### `analysis/frequency.py` -/

/-- `compute_expected_each`: `float(num_draws) * (6.0 / 49.0)`, exactly in `Rat`. -/
def compute_expected_each (num_draws : Int) : Rat := (num_draws : Rat) * (6 / 49)

/-- `compute_deltas`: observed minus expected, per number. -/
def compute_deltas (freq : List (Int × Int)) (expected_each : Rat) : List (Int × Rat) :=
  freq.map (fun kv => (kv.1, (kv.2 : Rat) - expected_each))

/-- Python `lst[-k:]` for a natural `k`: the last `k` elements, except that
`lst[-0:]` is the whole list. -/
def pyLastSlice (k : Nat) (l : List Int) : List Int :=
  if k = 0 then l else l.drop (l.length - k)

/-- `get_hot_cold_numbers` from `analysis/frequency.py`: sort deltas
descending, take the first `top_k` positive ones as hot, the last `top_k`
negative ones as cold, then return both lists sorted ascending. -/
def get_hot_cold_numbers (freq : List (Int × Int)) (expected_each : Rat)
    (top_k : Nat := 6) : List Int × List Int :=
  let deltas := compute_deltas freq expected_each
  let sorted_by_delta := deltas.insertionSort (fun a b => b.2 ≤ a.2)
  let hot_numbers := ((sorted_by_delta.filter (fun x => decide (0 < x.2))).map
    Prod.fst).take top_k
  let cold_numbers := pyLastSlice top_k
    ((sorted_by_delta.filter (fun x => decide (x.2 < 0))).map Prod.fst)
  (hot_numbers.insertionSort (· ≤ ·), cold_numbers.insertionSort (· ≤ ·))

lemma hot_mem {freq : List (Int × Int)} {e : Rat} {k : Nat} {n : Int}
    (h : n ∈ (get_hot_cold_numbers freq e k).1) :
    ∃ v, (n, v) ∈ freq ∧ e < (v : Rat) := by
  unfold get_hot_cold_numbers at h
  simp only at h
  rw [List.mem_insertionSort] at h
  have h2 := List.mem_of_mem_take h
  obtain ⟨x, hx, rfl⟩ := List.mem_map.mp h2
  have hx2 := List.mem_filter.mp hx
  rw [List.mem_insertionSort] at hx2
  obtain ⟨kv, hkv, heq⟩ := List.mem_map.mp hx2.1
  have hpos : (0 : Rat) < x.2 := by simpa using hx2.2
  refine ⟨kv.2, ?_, ?_⟩
  · rw [← heq]; simpa using hkv
  · rw [← heq] at hpos; simp at hpos; linarith

lemma cold_mem {freq : List (Int × Int)} {e : Rat} {k : Nat} {n : Int}
    (h : n ∈ (get_hot_cold_numbers freq e k).2) :
    ∃ v, (n, v) ∈ freq ∧ (v : Rat) < e := by
  unfold get_hot_cold_numbers at h
  simp only at h
  rw [List.mem_insertionSort] at h
  have h2 : n ∈ ((List.insertionSort (fun a b => b.2 ≤ a.2)
      (compute_deltas freq e)).filter (fun x => decide (x.2 < 0))).map Prod.fst := by
    unfold pyLastSlice at h
    by_cases hk : k = 0
    · rwa [if_pos hk] at h
    · rw [if_neg hk] at h
      exact List.mem_of_mem_drop h
  obtain ⟨x, hx, rfl⟩ := List.mem_map.mp h2
  have hx2 := List.mem_filter.mp hx
  rw [List.mem_insertionSort] at hx2
  obtain ⟨kv, hkv, heq⟩ := List.mem_map.mp hx2.1
  have hneg : x.2 < (0 : Rat) := by simpa using hx2.2
  refine ⟨kv.2, ?_, ?_⟩
  · rw [← heq]; simpa using hkv
  · rw [← heq] at hneg; simp at hneg; linarith

end LotteryLab

/-- C4 counterexample: with `top_k = 0`, Python's `[-0:]` slice returns the
whole list, so the cold list can exceed `top_k` elements: here it has one. -/
theorem C4_counterexample :
    (LotteryLab.get_hot_cold_numbers [(1, 0)] 1 0).2.length = 1 := by
  norm_num [LotteryLab.get_hot_cold_numbers, LotteryLab.compute_deltas,
    LotteryLab.pyLastSlice, List.insertionSort, List.orderedInsert, List.filter]

/-- C4 (amended): hot numbers all lie strictly above `expected_each`, cold
numbers strictly below; both lists are ascending; `hot` has at most `top_k`
elements, and `cold` has at most `top_k` elements whenever `top_k ≥ 1`
(for `top_k = 0` the `[-top_k:]` slice leaves `cold` untruncated). -/
theorem C4_hot_cold_numbers (freq : List (Int × Int)) (e : Rat) (k : Nat) :
    (∀ n ∈ (LotteryLab.get_hot_cold_numbers freq e k).1,
      ∃ v, (n, v) ∈ freq ∧ e < (v : Rat)) ∧
    (∀ n ∈ (LotteryLab.get_hot_cold_numbers freq e k).2,
      ∃ v, (n, v) ∈ freq ∧ (v : Rat) < e) ∧
    (LotteryLab.get_hot_cold_numbers freq e k).1.length ≤ k ∧
    (1 ≤ k → (LotteryLab.get_hot_cold_numbers freq e k).2.length ≤ k) ∧
    (LotteryLab.get_hot_cold_numbers freq e k).1.Sorted (· ≤ ·) ∧
    (LotteryLab.get_hot_cold_numbers freq e k).2.Sorted (· ≤ ·) := by
  refine ⟨fun n h => LotteryLab.hot_mem h, fun n h => LotteryLab.cold_mem h,
    ?_, ?_, ?_, ?_⟩
  · unfold LotteryLab.get_hot_cold_numbers
    simp only
    rw [(List.perm_insertionSort _ _).length_eq]
    simp [List.length_take]
  · intro hk
    unfold LotteryLab.get_hot_cold_numbers LotteryLab.pyLastSlice
    simp only
    rw [(List.perm_insertionSort _ _).length_eq]
    rw [if_neg (by omega)]
    simp only [List.length_drop]
    omega
  · exact List.sorted_insertionSort _ _
  · exact List.sorted_insertionSort _ _

/-- Witness for C4 at a concrete frequency map. -/
theorem C4_hot_cold_numbers_witness :
    (LotteryLab.get_hot_cold_numbers [(7, 5), (3, 0)] 1 6).1 = [7] ∧
    (LotteryLab.get_hot_cold_numbers [(7, 5), (3, 0)] 1 6).2 = [3] ∧
    (1 : Rat) < ((5 : Int) : Rat) ∧
    (LotteryLab.get_hot_cold_numbers [(7, 5), (3, 0)] 1 6).2.length ≤ 6 := by
  refine ⟨?_, ?_, by norm_num, ?_⟩
  · norm_num [LotteryLab.get_hot_cold_numbers, LotteryLab.compute_deltas,
      LotteryLab.pyLastSlice, List.insertionSort, List.orderedInsert, List.filter]
  · norm_num [LotteryLab.get_hot_cold_numbers, LotteryLab.compute_deltas,
      LotteryLab.pyLastSlice, List.insertionSort, List.orderedInsert, List.filter]
  · exact (C4_hot_cold_numbers [(7, 5), (3, 0)] 1 6).2.2.2.1 (by norm_num)

namespace LotteryLab

/-- Row-wise `_parse_numbers` over the strings the `select` returns; the
Python loop raises as soon as one row is unparsable. -/
def mapParseAll : List String → Option (List (List Int))
  | [] => some []
  | s :: rest =>
    match _parse_numbers s, mapParseAll rest with
    | some v, some vs => some (v :: vs)
    | _, _ => none

/-- The `for n in range(1, 50): counts.setdefault(n, 0)` key range. -/
def oneTo49 : List Int := (List.range 49).map (fun i : Nat => (i : Int) + 1)

/-- `calculate_frequency` from `analysis/frequency.py`, with the SQL query
abstracted to the list of `numbers` strings it returns: count every parsed
number, default the keys 1..49 to 0, and return the counter sorted by key. -/
def calculate_frequency (rows : List String) : Option (List (Int × Nat)) :=
  match mapParseAll rows with
  | none => none
  | some numLists =>
    let allNums := numLists.flatten
    let keys := (allNums ++ oneTo49).dedup
    some ((keys.insertionSort (· ≤ ·)).map (fun k => (k, allNums.count k)))

lemma mem_oneTo49 {n : Int} (h1 : 1 ≤ n) (h2 : n ≤ 49) : n ∈ oneTo49 := by
  have hx : (n - 1).toNat ∈ List.range 49 := List.mem_range.mpr (by omega)
  have hy : (((n - 1).toNat : Nat) : Int) + 1 = n := by omega
  exact List.mem_map.mpr ⟨(n - 1).toNat, hx, hy⟩

end LotteryLab

/-- C10: whenever `calculate_frequency` returns (no row raised), its result
contains every key 1..49 (never-drawn numbers map to 0), all counts are
non-negative, and the keys are ascending (and distinct). -/
theorem C10_calculate_frequency (rows : List String) (res : List (Int × Nat))
    (h : LotteryLab.calculate_frequency rows = some res) :
    (∀ n : Int, 1 ≤ n → n ≤ 49 → n ∈ res.map Prod.fst) ∧
    (∀ kv ∈ res, 0 ≤ kv.2) ∧
    (res.map Prod.fst).Sorted (· ≤ ·) ∧
    (res.map Prod.fst).Nodup := by
  unfold LotteryLab.calculate_frequency at h
  cases hm : LotteryLab.mapParseAll rows with
  | none => rw [hm] at h; cases h
  | some numLists =>
    rw [hm] at h
    simp only [Option.some.injEq] at h
    subst h
    have hfst : ((((numLists.flatten ++ LotteryLab.oneTo49).dedup).insertionSort
        (· ≤ ·)).map (fun k => (k, numLists.flatten.count k))).map Prod.fst =
        ((numLists.flatten ++ LotteryLab.oneTo49).dedup).insertionSort (· ≤ ·) := by
      rw [List.map_map]
      exact List.map_id'' (fun x => rfl) _
    refine ⟨?_, fun kv _ => Nat.zero_le _, ?_, ?_⟩
    · intro n h1 h2
      rw [hfst, List.mem_insertionSort, List.mem_dedup, List.mem_append]
      exact Or.inr (LotteryLab.mem_oneTo49 h1 h2)
    · rw [hfst]
      exact List.sorted_insertionSort _ _
    · rw [hfst]
      exact (List.perm_insertionSort _ _).nodup_iff.mpr (List.nodup_dedup _)

/-- Witness for C10 on one concrete row. -/
theorem C10_calculate_frequency_witness :
    (3 : Int) ∈ (((LotteryLab.calculate_frequency ["3,7"]).getD []).map Prod.fst) := by
  obtain ⟨h1, _, _, _⟩ := C10_calculate_frequency ["3,7"]
    ((LotteryLab.calculate_frequency ["3,7"]).getD []) (by decide)
  exact h1 3 (by norm_num) (by norm_num)

namespace LotteryLab

/-! ### `analysis/randomness.py` -/

/-- The result dict of `runs_test`; the early short-sequence return carries no
`n1`/`n2` keys, hence the `Option`. -/
structure RunsResult where
  observed_runs : Nat
  expected_runs : Rat
  z_score : Rat
  p_value : Rat
  is_random : Bool
  test_type : String
  n1 : Option Nat
  n2 : Option Nat
deriving Repr

/-- `sorted(draw_sequence)[n // 2]`. -/
def pyMedian (seq : List Int) : Int :=
  (seq.insertionSort (· ≤ ·)).getD (seq.length / 2) 0

/-- The binary classification of `runs_test` for each known `test_type`;
`none` marks the `raise ValueError` branch. -/
def binarySeqOpt (testType : String) (seq : List Int) : Option (List Bool) :=
  if testType = "median" then
    some (seq.map (fun x => decide (pyMedian seq < x)))
  else if testType = "even_odd" then
    some (seq.map (fun x => decide (x % 2 = 0)))
  else if testType = "high_low" then
    some (seq.map (fun x => decide (25 < x)))
  else if testType = "ascending" then
    some (true :: (seq.zip seq.tail).map (fun p => decide (p.1 < p.2)))
  else none

/-- The `runs = 1; for i in range(1, len(b)): if b[i] != b[i-1]: runs += 1`
loop, with the running previous element as state. -/
def countRuns (bin : List Bool) : Nat :=
  match bin with
  | [] => 1
  | b :: rest =>
    (rest.foldl (fun (acc : Nat × Bool) x =>
      (if x ≠ acc.2 then acc.1 + 1 else acc.1, x)) (1, b)).1

/-- Number of adjacent positions where the classification changes. -/
def numChanges (bin : List Bool) : Nat :=
  (bin.zip bin.tail).countP (fun p => p.1 != p.2)

/-- `runs_test` from `analysis/randomness.py`.  `normCdf` abstracts
`scipy.stats.norm.cdf` and `sqrtFn` abstracts `math.sqrt`; no claim under
verification depends on their values. -/
def runs_test (normCdf sqrtFn : Rat → Rat) (draw_sequence : List Int)
    (test_type : String) : Except String RunsResult :=
  if draw_sequence.length < 2 then
    .ok ⟨0, 0, 0, 1, true, test_type, none, none⟩
  else
    let n := draw_sequence.length
    match binarySeqOpt test_type draw_sequence with
    | none => .error ("Unknown test_type: " ++ test_type)
    | some binary_sequence =>
      let runs := countRuns binary_sequence
      let n1 := binary_sequence.countP id
      let n2 := n - n1
      let expected_runs : Rat :=
        if n1 = 0 ∨ n2 = 0 then 1
        else (2 * (n1 : Rat) * n2) / ((n1 : Rat) + n2) + 1
      let variance : Rat :=
        if n1 = 0 ∨ n2 = 0 then 0
        else (2 * (n1 : Rat) * n2 * (2 * (n1 : Rat) * n2 - n1 - n2)) /
          (((n1 : Rat) + n2) ^ 2 * ((n1 : Rat) + n2 - 1))
      if variance = 0 then
        .ok ⟨runs, expected_runs, 0, 1, true, test_type, some n1, some n2⟩
      else
        let z : Rat := ((runs : Rat) - expected_runs) / sqrtFn variance
        let p : Rat := 2 * (1 - normCdf |z|)
        .ok ⟨runs, expected_runs, z, p, decide (p > 1/20), test_type, some n1, some n2⟩

lemma runsFold (rest : List Bool) : ∀ (a : Nat) (prev : Bool),
    (rest.foldl (fun (acc : Nat × Bool) x =>
      (if x ≠ acc.2 then acc.1 + 1 else acc.1, x)) (a, prev)).1
    = a + ((prev :: rest).zip rest).countP (fun p => p.1 != p.2) := by
  induction rest with
  | nil => intro a prev; simp
  | cons x rs ih =>
    intro a prev
    simp only [List.foldl_cons, List.zip_cons_cons, List.countP_cons]
    rw [ih]
    by_cases hx : x = prev
    · subst hx
      simp
    · have h1 : (x ≠ prev) = True := by simp [hx]
      have h2 : (prev != x) = true := by simp [Ne.symm hx]
      simp only [h1, if_true, h2, if_pos]
      omega

lemma countRuns_eq_numChanges (bin : List Bool) :
    countRuns bin = (if bin = [] then 1 else 1 + numChanges bin) := by
  cases bin with
  | nil => rfl
  | cons b rest =>
    rw [countRuns, runsFold, numChanges]
    simp

end LotteryLab

namespace LotteryLab

lemma binarySeqOpt_ne_nil {tt : String} {seq : List Int} {bin : List Bool}
    (h1 : seq ≠ []) (hb : binarySeqOpt tt seq = some bin) : bin ≠ [] := by
  unfold binarySeqOpt at hb
  split_ifs at hb with hA hB hC hD
  all_goals simp only [Option.some.injEq] at hb
  · subst hb; simpa using h1
  · subst hb; simpa using h1
  · subst hb; simpa using h1
  · subst hb; simp

lemma runs_test_ok (cdf sq : Rat → Rat) (seq : List Int) (tt : String)
    (bin : List Bool) (h2 : ¬ seq.length < 2)
    (hb : binarySeqOpt tt seq = some bin) :
    ∃ r, runs_test cdf sq seq tt = .ok r ∧
      r.observed_runs = countRuns bin ∧
      r.expected_runs =
        (if bin.countP id = 0 ∨ seq.length - bin.countP id = 0 then 1
         else (2 * (bin.countP id : Rat) * ((seq.length - bin.countP id : Nat) : Rat)) /
           ((bin.countP id : Rat) + ((seq.length - bin.countP id : Nat) : Rat)) + 1) ∧
      r.n1 = some (bin.countP id) ∧ r.n2 = some (seq.length - bin.countP id) ∧
      r.test_type = tt := by
  unfold runs_test
  rw [if_neg h2, hb]
  simp only []
  split
  · rw [if_pos rfl]
    exact ⟨_, rfl, rfl, rfl, rfl, rfl, rfl⟩
  · split
    · exact ⟨_, rfl, rfl, rfl, rfl, rfl, rfl⟩
    · exact ⟨_, rfl, rfl, rfl, rfl, rfl, rfl⟩

end LotteryLab

/-- C5: for a sequence of length ≥ 2 and a known test type, `runs_test` returns
`observed_runs` equal to one plus the number of adjacent classification
changes, and `expected_runs` equal to `2*n1*n2/(n1+n2) + 1` when both classes
occur and `1.0` otherwise; an unknown test type raises `ValueError`; a
sequence of length < 2 returns `observed_runs = 0`, `p_value = 1.0`,
`is_random = True`. -/
theorem C5_runs_test (cdf sq : Rat → Rat) (seq : List Int) (tt : String) :
    (∀ bin : List Bool, 2 ≤ seq.length →
      LotteryLab.binarySeqOpt tt seq = some bin →
      ∃ r, LotteryLab.runs_test cdf sq seq tt = .ok r ∧
        r.observed_runs = 1 + LotteryLab.numChanges bin ∧
        r.n1 = some (bin.countP id) ∧
        r.n2 = some (seq.length - bin.countP id) ∧
        (bin.countP id ≠ 0 → seq.length - bin.countP id ≠ 0 →
          r.expected_runs =
            (2 * (bin.countP id : Rat) * ((seq.length - bin.countP id : Nat) : Rat)) /
              ((bin.countP id : Rat) + ((seq.length - bin.countP id : Nat) : Rat)) + 1) ∧
        ((bin.countP id = 0 ∨ seq.length - bin.countP id = 0) →
          r.expected_runs = 1)) ∧
    (2 ≤ seq.length → tt ≠ "median" → tt ≠ "even_odd" → tt ≠ "high_low" →
      tt ≠ "ascending" →
      LotteryLab.runs_test cdf sq seq tt = .error ("Unknown test_type: " ++ tt)) ∧
    (seq.length < 2 →
      LotteryLab.runs_test cdf sq seq tt = .ok ⟨0, 0, 0, 1, true, tt, none, none⟩) := by
  refine ⟨?_, ?_, ?_⟩
  · intro bin h2 hb
    obtain ⟨r, hr, hobs, hexp, hn1, hn2, _⟩ :=
      LotteryLab.runs_test_ok cdf sq seq tt bin (by omega) hb
    have hbne : bin ≠ [] :=
      LotteryLab.binarySeqOpt_ne_nil (by intro h; subst h; simp at h2) hb
    refine ⟨r, hr, ?_, hn1, hn2, ?_, ?_⟩
    · rw [hobs, LotteryLab.countRuns_eq_numChanges, if_neg hbne]
    · intro hz1 hz2
      rw [hexp, if_neg (by tauto)]
    · intro hor
      rw [hexp, if_pos hor]
  · intro h2 hA hB hC hD
    unfold LotteryLab.runs_test
    rw [if_neg (by omega)]
    have hbn : LotteryLab.binarySeqOpt tt seq = none := by
      unfold LotteryLab.binarySeqOpt
      rw [if_neg hA, if_neg hB, if_neg hC, if_neg hD]
    rw [hbn]
  · intro h2
    unfold LotteryLab.runs_test
    rw [if_pos h2]

/-- Witness for C5: an unknown test type errors; a short sequence returns the
degenerate result; a concrete median run has `1 + 2` observed runs. -/
theorem C5_runs_test_witness :
    LotteryLab.runs_test (fun _ => 0) (fun _ => 0) [1, 2] "bogus" =
      .error "Unknown test_type: bogus" ∧
    LotteryLab.runs_test (fun _ => 0) (fun _ => 0) [5] "median" =
      .ok ⟨0, 0, 0, 1, true, "median", none, none⟩ ∧
    Except.map LotteryLab.RunsResult.observed_runs
      (LotteryLab.runs_test (fun _ => 0) (fun _ => 0) [1, 5, 2] "median") =
      .ok 3 := by
  refine ⟨?_, ?_, ?_⟩
  · have h := (C5_runs_test (fun _ => 0) (fun _ => 0) [1, 2] "bogus").2.1
      (by norm_num) (by decide) (by decide) (by decide) (by decide)
    simpa using h
  · exact (C5_runs_test (fun _ => 0) (fun _ => 0) [5] "median").2.2 (by norm_num)
  · obtain ⟨r, hr, hobs, _⟩ :=
      (C5_runs_test (fun _ => 0) (fun _ => 0) [1, 5, 2] "median").1
      [false, true, false] (by norm_num) (by decide)
    rw [hr]
    simp only [Except.map]
    rw [hobs]
    rfl

namespace LotteryLab

/-- Result dict of `chi_square_goodness_of_fit`. -/
structure ChiSquareResult where
  chi_square_statistic : Rat
  p_value : Rat
  degrees_of_freedom : Int
  is_random : Bool
  expected_frequency : Rat
  total_observations : Int
deriving Repr

/-- `observed = list(dict(sorted(observed_frequencies.items())).values())`:
the counts in key order. -/
def sortedVals (l : List (Int × Int)) : List Int :=
  (l.insertionSort (fun a b => a.1 ≤ b.1)).map Prod.snd

/-- The expected frequency used: the argument if given, else uniform
`total / categories`. -/
def expFreqOf (l : List (Int × Int)) (ef : Option Rat) : Rat :=
  ef.getD (((sortedVals l).sum : Rat) / ((sortedVals l).length : Rat))

/-- The chi-square statistic loop: `if exp > 0: stat += (obs - exp)**2 / exp`. -/
def statOf (l : List (Int × Int)) (ef : Option Rat) : Rat :=
  ((sortedVals l).map (fun o : Int =>
    if 0 < expFreqOf l ef then ((o : Rat) - expFreqOf l ef) ^ 2 / expFreqOf l ef
    else 0)).sum

/-- Degrees of freedom: the argument if given, else `categories - 1`. -/
def dofOf (l : List (Int × Int)) (d : Option Int) : Int :=
  d.getD (((sortedVals l).length : Int) - 1)

/-- `chi_square_goodness_of_fit` from `analysis/randomness.py`; `chi2cdf`
abstracts `scipy.stats.chi2.cdf`. -/
def chi_square_goodness_of_fit (chi2cdf : Rat → Int → Rat)
    (observed_frequencies : List (Int × Int))
    (expected_frequency : Option Rat := none)
    (degrees_of_freedom : Option Int := none) : ChiSquareResult :=
  if observed_frequencies.isEmpty then ⟨0, 1, 0, true, 0, 0⟩
  else if (sortedVals observed_frequencies).sum = 0 then ⟨0, 1, 0, true, 0, 0⟩
  else
    let stat := statOf observed_frequencies expected_frequency
    let dofv := dofOf observed_frequencies degrees_of_freedom
    let p := 1 - chi2cdf stat dofv
    ⟨stat, p, dofv, decide (p > 1/20),
      expFreqOf observed_frequencies expected_frequency,
      (sortedVals observed_frequencies).sum⟩

/-- `total_observations` over the (unsorted) frequency map. -/
def totalObsOf (l : List (Int × Int)) : Int := (l.map Prod.snd).sum

lemma sortedVals_sum (l : List (Int × Int)) : (sortedVals l).sum = totalObsOf l :=
  ((List.perm_insertionSort (fun a b : Int × Int => a.1 ≤ b.1) l).map Prod.snd).sum_eq

lemma sortedVals_length (l : List (Int × Int)) : (sortedVals l).length = l.length := by
  unfold sortedVals
  rw [List.length_map]
  exact (List.perm_insertionSort _ l).length_eq

end LotteryLab

/-- C6: with default expected frequency and degrees of freedom, on a non-empty
map with positive total the statistic is `Σ (o - e)^2 / e` with
`e = total/categories` and `dof = categories - 1`; an empty map or zero total
yields the degenerate result `(0, 1, 0, random)`; and `is_random` holds
exactly when `p_value > 0.05`. -/
theorem C6_chi_square_goodness_of_fit (cdf : Rat → Int → Rat)
    (l : List (Int × Int)) (e : Option Rat) (d : Option Int) :
    (l ≠ [] → 0 < LotteryLab.totalObsOf l →
      (LotteryLab.chi_square_goodness_of_fit cdf l none none).chi_square_statistic =
        (l.map (fun kv => ((kv.2 : Rat) - LotteryLab.expFreqOf l none) ^ 2 /
          LotteryLab.expFreqOf l none)).sum ∧
      (LotteryLab.chi_square_goodness_of_fit cdf l none none).degrees_of_freedom =
        (l.length : Int) - 1 ∧
      (LotteryLab.chi_square_goodness_of_fit cdf l none none).expected_frequency =
        (LotteryLab.totalObsOf l : Rat) / (l.length : Rat)) ∧
    (LotteryLab.chi_square_goodness_of_fit cdf [] e d = ⟨0, 1, 0, true, 0, 0⟩) ∧
    (LotteryLab.totalObsOf l = 0 →
      LotteryLab.chi_square_goodness_of_fit cdf l e d = ⟨0, 1, 0, true, 0, 0⟩) ∧
    ((LotteryLab.chi_square_goodness_of_fit cdf l e d).is_random = true ↔
      (LotteryLab.chi_square_goodness_of_fit cdf l e d).p_value > 1/20) := by
  refine ⟨?_, rfl, ?_, ?_⟩
  · intro hne htot
    have hemp : ¬ (l.isEmpty = true) := by simp [List.isEmpty_iff, hne]
    have hsum : ¬ ((LotteryLab.sortedVals l).sum = 0) := by
      rw [LotteryLab.sortedVals_sum]; omega
    unfold LotteryLab.chi_square_goodness_of_fit
    rw [if_neg hemp, if_neg hsum]
    have hlen : 0 < l.length := List.length_pos.mpr hne
    have hE : LotteryLab.expFreqOf l none =
        (LotteryLab.totalObsOf l : Rat) / (l.length : Rat) := by
      unfold LotteryLab.expFreqOf
      rw [Option.getD_none, LotteryLab.sortedVals_sum, LotteryLab.sortedVals_length]
    have hEpos : 0 < LotteryLab.expFreqOf l none := by
      rw [hE]
      apply div_pos
      · exact_mod_cast htot
      · exact_mod_cast hlen
    refine ⟨?_, ?_, ?_⟩
    · show LotteryLab.statOf l none = _
      unfold LotteryLab.statOf
      rw [List.map_congr_left (fun o _ => if_pos hEpos)]
      unfold LotteryLab.sortedVals
      rw [List.map_map]
      exact (((List.perm_insertionSort (fun a b : Int × Int => a.1 ≤ b.1) l).map
        _).sum_eq)
    · show LotteryLab.dofOf l none = _
      unfold LotteryLab.dofOf
      rw [Option.getD_none, LotteryLab.sortedVals_length]
    · exact hE
  · intro htot
    unfold LotteryLab.chi_square_goodness_of_fit
    by_cases hemp : l.isEmpty = true
    · rw [if_pos hemp]
    · rw [if_neg hemp, if_pos (by rw [LotteryLab.sortedVals_sum]; omega)]
  · unfold LotteryLab.chi_square_goodness_of_fit
    by_cases hemp : l.isEmpty = true
    · rw [if_pos hemp]
      norm_num
    · rw [if_neg hemp]
      by_cases hsum : (LotteryLab.sortedVals l).sum = 0
      · rw [if_pos hsum]
        norm_num
      · rw [if_neg hsum]
        simp only
        exact ⟨of_decide_eq_true, decide_eq_true⟩

/-- Witness for C6 at a concrete two-category map with total 3. -/
theorem C6_chi_square_goodness_of_fit_witness :
    (LotteryLab.chi_square_goodness_of_fit (fun _ _ => 0) [(1, 2), (2, 1)]
      none none).degrees_of_freedom = 1 ∧
    (LotteryLab.chi_square_goodness_of_fit (fun _ _ => 0) [] none none) =
      ⟨0, 1, 0, true, 0, 0⟩ ∧
    (LotteryLab.chi_square_goodness_of_fit (fun _ _ => 0) [(1, 5), (2, -5)]
      none none) = ⟨0, 1, 0, true, 0, 0⟩ := by
  refine ⟨?_, ?_, ?_⟩
  · have h := (C6_chi_square_goodness_of_fit (fun _ _ => 0) [(1, 2), (2, 1)]
      none none).1 (by decide) (by decide)
    rw [h.2.1]
    norm_num
  · exact (C6_chi_square_goodness_of_fit (fun _ _ => 0) [] none none).2.1
  · exact (C6_chi_square_goodness_of_fit (fun _ _ => 0) [(1, 5), (2, -5)]
      none none).2.2.1 (by decide)

namespace LotteryLab

/-! ### `scheduler.fetch_mbnet_txt` archiving
The filesystem state is the list of archived raw files, most recent first
(their names sort by the UTC timestamp of the write); `hash` abstracts
`hashlib.sha256(...).hexdigest()`; byte strings are `List Nat`.  The
`except`-path around reading the latest file (treated as "not the same") and
the log lines are outside the archiving decision and are not modelled. -/

/-- One archiving decision of `fetch_mbnet_txt` (with `archive=True`): compare
the fetched bytes' hash with the most recently archived file's hash; write a
new timestamped file only when they differ (or no archive exists), then
enforce the 30-file retention.  Returns the new state and whether a file was
written. -/
def fetchArchiveStep (hash : List Nat → List Nat) (archive : List (List Nat))
    (data : List Nat) : List (List Nat) × Bool :=
  let same_as_latest :=
    match archive.head? with
    | none => false
    | some latest => decide (hash latest = hash data)
  if same_as_latest then (archive, false)
  else ((data :: archive).take 30, true)

lemma fetchArchiveStep_head (hash : List Nat → List Nat)
    (archive : List (List Nat)) (data : List Nat) :
    ((fetchArchiveStep hash archive data).1).head? = some data ∨
    ((fetchArchiveStep hash archive data).1 = archive ∧
      ∃ latest, archive.head? = some latest ∧ hash latest = hash data) := by
  unfold fetchArchiveStep
  cases hh : archive.head? with
  | none =>
    simp only
    rw [if_neg (by simp)]
    exact Or.inl rfl
  | some latest =>
    simp only
    by_cases he : hash latest = hash data
    · rw [if_pos (by simp [he])]
      exact Or.inr ⟨rfl, latest, rfl, he⟩
    · rw [if_neg (by simp [he])]
      exact Or.inl rfl

end LotteryLab

/-- C7: a new raw file is written iff there is no archived file yet or the
fetched bytes hash differently from the most recently archived file; hence
fetching the same content twice in a row writes at most once — the second
call never writes. -/
theorem C7_fetch_archive_dedup (hash : List Nat → List Nat)
    (archive : List (List Nat)) (data : List Nat) :
    ((LotteryLab.fetchArchiveStep hash archive data).2 = true ↔
      (archive.head? = none ∨
        ∀ latest, archive.head? = some latest → hash latest ≠ hash data)) ∧
    (LotteryLab.fetchArchiveStep hash
      (LotteryLab.fetchArchiveStep hash archive data).1 data).2 = false := by
  constructor
  · unfold LotteryLab.fetchArchiveStep
    cases hh : archive.head? with
    | none => simp
    | some latest =>
      simp only
      by_cases he : hash latest = hash data
      · rw [if_pos (by simp [he])]
        simp [he]
      · rw [if_neg (by simp [he])]
        simp only [true_iff]
        refine Or.inr (fun x hx => ?_)
        rw [Option.some.injEq] at hx
        subst hx
        exact he
  · rcases LotteryLab.fetchArchiveStep_head hash archive data with h | ⟨heq, latest, hl, he⟩
    · set A2 := (LotteryLab.fetchArchiveStep hash archive data).1 with hA2
      unfold LotteryLab.fetchArchiveStep
      rw [h]
      simp
    · rw [heq]
      unfold LotteryLab.fetchArchiveStep
      rw [hl]
      simp [he]
